import Mathlib

/-!
Shallow embedding of `scripts/fill-memcached.py` from cloudflare/cfnts.

The script (Python 2):

  (imports: memcache, time, math)
  print "filling memcache"
  servers = ["localhost:11211"]
  mc = memcache.Client(servers)
  rand = open("/dev/urandom", "rb")
  interval = 3600
  now = int(math.floor(time.time()))
  for i in range(-50, 4):
      epoch = int((math.floor(now/interval)+i)*interval)
      key = "/nts/nts-keys/%s"%epoch
      print key
      if mc.set(key, rand.read(16)) == 0:
          print "failure"
      else:
          print "success"

We model the wall clock reading `now` as an integer parameter, the
memcached client as a function `mc : String → List Nat → Nat` giving the
return status of each SET (the script treats return value 0 as failure),
and `/dev/urandom` as an infinite byte stream `rand : Nat → Nat` that the
script consumes sequentially (position threaded through the loop).
The run is modelled as the trace of externally visible events:
console prints, random-source reads and cache SET calls.
-/

namespace FillMemcached

/-- Python 2 `range(a, b)`: the integers from `a` (inclusive) to `b` (exclusive). -/
def pyRange (a b : Int) : List Int :=
  (List.range (b - a).toNat).map (fun k => a + (k : Int))

/-- Source line `servers = ["localhost:11211"]` (hard-coded in the script). -/
def servers : List String := ["localhost:11211"]

/-- Source line `interval = 3600` (hard-coded in the script). -/
def interval : Int := 3600

/-- The loop bounds `range(-50, 4)` (hard-coded in the script). -/
def windowOffsets : List Int := pyRange (-50) 4

/-- Source line `epoch = int((math.floor(now/interval)+i)*interval)`.
In Python 2, `now/interval` on integers is floor division, so `math.floor`
and `int` are the identity on the already-integral result; the whole
expression is `(now fdiv interval + i) * interval`. -/
def epoch (now i : Int) : Int := (Int.fdiv now interval + i) * interval

/-- Source line `key = "/nts/nts-keys/%s" % epoch`: the namespace prefix directly
followed by the decimal representation of the epoch. -/
def key (e : Int) : String := "/nts/nts-keys/" ++ toString e

/-- Reading `rand.read(n)` when the stream is at position `pos`: the next `n` bytes. -/
def readBytes (rand : Nat → Nat) (pos n : Nat) : List Nat :=
  (List.range n).map (fun j => rand (pos + j))

/-- An externally visible event of the script. -/
inductive Event where
  | print (s : String)
  | read (n : Nat)
  | set (k : String) (v : List Nat) (ret : Nat)
  deriving DecidableEq, Repr

/-- The `for i in range(-50, 4)` loop body, iterated over the remaining
offsets; `pos` is the current read position of the `/dev/urandom` stream. -/
def runLoop (now : Int) (mc : String → List Nat → Nat) (rand : Nat → Nat) :
    List Int → Nat → List Event
  | [], _ => []
  | i :: rest, pos =>
    let e := epoch now i
    let k := key e
    let v := readBytes rand pos 16
    let r := mc k v
    Event.print k :: Event.read 16 :: Event.set k v r ::
      Event.print (if r = 0 then "failure" else "success") ::
        runLoop now mc rand rest (pos + 16)

/-- One full run of the script: the banner print, then the loop over the
window starting at stream position 0. -/
def run (now : Int) (mc : String → List Nat → Nat) (rand : Nat → Nat) : List Event :=
  Event.print "filling memcache" :: runLoop now mc rand windowOffsets 0

/-- The script falls off the end of the file without ever calling
`sys.exit` or raising, so the interpreter's exit status is 0 no matter
what the SET calls returned. -/
def runExit (_now : Int) (_mc : String → List Nat → Nat) (_rand : Nat → Nat) : Nat := 0

/-! ### Trace observations -/

/-- The lines printed to standard output, in order. -/
def printedLines (t : List Event) : List String :=
  t.filterMap fun e => match e with
    | Event.print s => some s
    | _ => none

/-- The keys of the SET calls issued, in order. -/
def setKeys (t : List Event) : List String :=
  t.filterMap fun e => match e with
    | Event.set k _ _ => some k
    | _ => none

/-- The values of the SET calls issued, in order. -/
def setValues (t : List Event) : List (List Nat) :=
  t.filterMap fun e => match e with
    | Event.set _ v _ => some v
    | _ => none

/-- The keys whose SET call returned 0, i.e. failed, in order. -/
def failedSetKeys (t : List Event) : List String :=
  t.filterMap fun e => match e with
    | Event.set k _ r => if r = 0 then some k else none
    | _ => none

/-- The sizes of the reads from the random source, in order. -/
def readSizes (t : List Event) : List Nat :=
  t.filterMap fun e => match e with
    | Event.read n => some n
    | _ => none

/-- The trace restricted to the non-print operations (reads and SETs). -/
def opEvents (t : List Event) : List Event :=
  t.filter fun e => match e with
    | Event.print _ => false
    | _ => true

/-- The epochs computed in one run with clock reading `now`, in loop order. -/
def epochsOf (now : Int) : List Int := windowOffsets.map (epoch now)

/-- The cache keys computed in one run with clock reading `now`, in loop order. -/
def keysOf (now : Int) : List String := (epochsOf now).map key

/-- The spec's simulated cache backend that fails on exactly one designated
key and succeeds on every other key. -/
def mcBad (bad : String) : String → List Nat → Nat :=
  fun k _ => if k = bad then 0 else 1

end FillMemcached

/-! ### Decimal representation: `Nat.repr` and `toString : Int → String` are injective -/

namespace FillMemcached

set_option maxRecDepth 400000

/-- The decimal digit characters of a number, most significant first
(empty for 0); `Nat.toDigits 10` produces exactly these for positive input. -/
def decChars (n : Nat) : List Char := ((Nat.digits 10 n).map Nat.digitChar).reverse

theorem toDigitsCore_eq (n : Nat) : ∀ (fuel : Nat) (ds : List Char), n < fuel →
    Nat.toDigitsCore 10 fuel n ds = (if n = 0 then ['0'] else decChars n) ++ ds := by
  induction n using Nat.strong_induction_on with
  | _ n ih =>
    intro fuel ds hfuel
    match fuel with
    | 0 => omega
    | f + 1 =>
      rw [Nat.toDigitsCore]
      by_cases h10 : n / 10 = 0
      · have hn10 : n < 10 := by omega
        simp only [h10, if_pos]
        by_cases h0 : n = 0
        · subst h0; simp [Nat.digitChar]
        · have : Nat.digits 10 n = [n] := by
            rw [Nat.digits_def' (by norm_num : (1:Nat) < 10) (Nat.pos_of_ne_zero h0)]
            simp [Nat.mod_eq_of_lt hn10, h10]
          simp [h0, decChars, this, Nat.mod_eq_of_lt hn10]
      · have hn : n ≠ 0 := by omega
        have hlt : n / 10 < f := by
          have := Nat.div_lt_self (Nat.pos_of_ne_zero hn) (by norm_num : 1 < 10)
          omega
        simp only [h10, if_neg, ite_false]
        rw [ih (n / 10) (Nat.div_lt_self (Nat.pos_of_ne_zero hn) (by norm_num)) f _ hlt]
        rw [if_neg h10]
        have : decChars n = decChars (n / 10) ++ [Nat.digitChar (n % 10)] := by
          unfold decChars
          rw [Nat.digits_def' (by norm_num : (1:Nat) < 10) (Nat.pos_of_ne_zero hn)]
          simp
        rw [this, if_neg hn, List.append_assoc]
        rfl

theorem repr_data (n : Nat) :
    (Nat.repr n).data = if n = 0 then ['0'] else decChars n := by
  show (Nat.toDigits 10 n).asString.data = _
  rw [Nat.toDigits, toDigitsCore_eq n (n + 1) [] (Nat.lt_succ_self n)]
  simp [List.asString]

theorem digitChar_inj {a b : Nat} (ha : a < 10) (hb : b < 10)
    (h : Nat.digitChar a = Nat.digitChar b) : a = b := by
  interval_cases a <;> interval_cases b <;> simp_all [Nat.digitChar]

theorem digitChar_ne_dash {a : Nat} (ha : a < 10) : Nat.digitChar a ≠ '-' := by
  interval_cases a <;> decide

theorem map_digitChar_inj : ∀ (l₁ l₂ : List Nat), (∀ x ∈ l₁, x < 10) → (∀ x ∈ l₂, x < 10) →
    l₁.map Nat.digitChar = l₂.map Nat.digitChar → l₁ = l₂
  | [], [], _, _, _ => rfl
  | [], _ :: _, _, _, h => by simp at h
  | _ :: _, [], _, _, h => by simp at h
  | a :: l₁, b :: l₂, h₁, h₂, h => by
    simp only [List.map_cons, List.cons.injEq] at h
    have hab : a = b :=
      digitChar_inj (h₁ a (List.mem_cons_self a l₁)) (h₂ b (List.mem_cons_self b l₂)) h.1
    have := map_digitChar_inj l₁ l₂ (fun x hx => h₁ x (List.mem_cons_of_mem a hx))
      (fun x hx => h₂ x (List.mem_cons_of_mem b hx)) h.2
    rw [hab, this]

theorem decChars_ne_singleton_zero {n : Nat} (hn : n ≠ 0) : decChars n ≠ ['0'] := by
  intro h
  unfold decChars at h
  have h' : (Nat.digits 10 n).map Nat.digitChar = ['0'] := by
    rw [← List.reverse_reverse ((Nat.digits 10 n).map Nat.digitChar), h]
    rfl
  have hdig : Nat.digits 10 n = [0] := by
    apply map_digitChar_inj _ [0]
    · exact fun x hx => Nat.digits_lt_base (by norm_num) hx
    · intro x hx; simp at hx; omega
    · simpa [Nat.digitChar] using h'
  have hlast := Nat.getLast_digit_ne_zero 10 hn
  simp only [hdig] at hlast
  exact hlast rfl

theorem nat_repr_injective : Function.Injective Nat.repr := by
  intro m n h
  have hd : (Nat.repr m).data = (Nat.repr n).data := congrArg String.data h
  rw [repr_data, repr_data] at hd
  by_cases hm : m = 0 <;> by_cases hn : n = 0
  · omega
  · rw [if_pos hm, if_neg hn] at hd
    exact absurd hd.symm (decChars_ne_singleton_zero hn)
  · rw [if_neg hm, if_pos hn] at hd
    exact absurd hd (decChars_ne_singleton_zero hm)
  · rw [if_neg hm, if_neg hn] at hd
    unfold decChars at hd
    have h1 : (Nat.digits 10 m).map Nat.digitChar = (Nat.digits 10 n).map Nat.digitChar :=
      List.reverse_injective hd
    have h2 : Nat.digits 10 m = Nat.digits 10 n :=
      map_digitChar_inj _ _ (fun x hx => Nat.digits_lt_base (by norm_num) hx)
        (fun x hx => Nat.digits_lt_base (by norm_num) hx) h1
    calc m = Nat.ofDigits 10 (Nat.digits 10 m) := (Nat.ofDigits_digits 10 m).symm
    _ = Nat.ofDigits 10 (Nat.digits 10 n) := by rw [h2]
    _ = n := Nat.ofDigits_digits 10 n

theorem dash_not_mem_repr_data (n : Nat) : '-' ∉ (Nat.repr n).data := by
  rw [repr_data]
  by_cases hn : n = 0
  · simp [hn]
  · rw [if_neg hn]
    intro hmem
    unfold decChars at hmem
    rw [List.mem_reverse] at hmem
    obtain ⟨d, hd, hdc⟩ := List.mem_map.mp hmem
    exact digitChar_ne_dash (Nat.digits_lt_base (by norm_num) hd) hdc

theorem int_toString_injective : Function.Injective (toString : Int → String) := by
  intro a b h
  cases a with
  | ofNat m =>
    cases b with
    | ofNat n =>
      have : Nat.repr m = Nat.repr n := h
      rw [nat_repr_injective this]
    | negSucc n =>
      have hd : (Nat.repr m).data = ('-' :: (Nat.repr (n + 1)).data) := by
        have : Nat.repr m = "-" ++ Nat.repr (n + 1) := h
        rw [this]
        rfl
      exact absurd (hd ▸ List.mem_cons_self '-' _) (dash_not_mem_repr_data m)
  | negSucc m =>
    cases b with
    | ofNat n =>
      have hd : (Nat.repr n).data = ('-' :: (Nat.repr (m + 1)).data) := by
        have : Nat.repr n = "-" ++ Nat.repr (m + 1) := h.symm
        rw [this]
        rfl
      exact absurd (hd ▸ List.mem_cons_self '-' _) (dash_not_mem_repr_data n)
    | negSucc n =>
      have h' : "-" ++ Nat.repr (m + 1) = "-" ++ Nat.repr (n + 1) := h
      have hd : (Nat.repr (m + 1)).data = (Nat.repr (n + 1)).data := by
        have := congrArg String.data h'
        simpa using this
      have hmn := nat_repr_injective (String.ext hd : Nat.repr (m + 1) = Nat.repr (n + 1))
      have : m = n := by omega
      rw [this]

theorem key_injective : Function.Injective key := by
  intro a b h
  have hd := congrArg String.data h
  unfold key at hd
  simp only [String.data_append] at hd
  have := List.append_cancel_left hd
  exact int_toString_injective (String.ext this)

end FillMemcached

/-! ### Shape of the generated window -/

namespace FillMemcached

set_option maxRecDepth 400000

theorem windowOffsets_explicit : windowOffsets = [-50, -49, -48, -47, -46, -45, -44, -43, -42, -41, -40, -39, -38, -37, -36, -35, -34, -33, -32, -31, -30, -29, -28, -27, -26, -25, -24, -23, -22, -21, -20, -19, -18, -17, -16, -15, -14, -13, -12, -11, -10, -9, -8, -7, -6, -5, -4, -3, -2, -1, 0, 1, 2, 3] := by rfl

theorem epochsOf_chain (now : Int) :
    List.Chain' (fun a b => b = a + 3600) (epochsOf now) := by
  simp only [epochsOf, windowOffsets_explicit, List.map_cons, List.map_nil,
    List.chain'_cons, List.chain'_singleton, epoch, interval, and_true]
  generalize Int.fdiv now 3600 = c
  omega

theorem epochsOf_nodup (now : Int) : (epochsOf now).Nodup := by
  have hlt : List.Chain' (fun a b : Int => a < b) (epochsOf now) :=
    (epochsOf_chain now).imp (by intro a b hab; omega)
  have hp : List.Pairwise (fun a b : Int => a < b) (epochsOf now) :=
    List.chain'_iff_pairwise.mp hlt
  exact hp.imp (by intro a b hab; omega)

theorem keysOf_nodup (now : Int) : (keysOf now).Nodup :=
  (epochsOf_nodup now).map key_injective

theorem nodup_filter_eq {α : Type} [DecidableEq α] {l : List α} {a : α}
    (hnd : l.Nodup) (hmem : a ∈ l) : l.filter (fun x => x = a) = [a] := by
  induction l with
  | nil => exact absurd hmem (List.not_mem_nil a)
  | cons b t ih =>
    rcases List.mem_cons.mp hmem with hba | hat
    · subst hba
      have hnotin : a ∉ t := (List.nodup_cons.mp hnd).1
      have ht : t.filter (fun x => x = a) = [] := by
        rw [List.filter_eq_nil_iff]
        intro x hx
        simp only [decide_eq_true_eq]
        intro hxb
        exact hnotin (hxb ▸ hx)
      simp [List.filter_cons, ht]
    · have hba : b ≠ a := by
        intro hb
        exact (List.nodup_cons.mp hnd).1 (hb ▸ hat)
      have := ih (List.nodup_cons.mp hnd).2 hat
      simp [List.filter_cons, hba, this]

theorem failedSetKeys_runLoop_mcBad (now : Int) (bad : String) (rand : Nat → Nat) :
    ∀ (l : List Int) (pos : Nat),
      failedSetKeys (runLoop now (mcBad bad) rand l pos) =
        (l.map fun i => key (epoch now i)).filter (fun k => k = bad)
  | [], _ => rfl
  | i :: rest, pos => by
    have ih := failedSetKeys_runLoop_mcBad now bad rand rest (pos + 16)
    simp only [failedSetKeys] at ih ⊢
    by_cases h : key (epoch now i) = bad <;>
      simp [runLoop, mcBad, h, List.filter_cons, ih]

theorem setKeys_runLoop (now : Int) (mc : String → List Nat → Nat) (rand : Nat → Nat) :
    ∀ (l : List Int) (pos : Nat),
      setKeys (runLoop now mc rand l pos) = l.map fun i => key (epoch now i)
  | [], _ => rfl
  | i :: rest, pos => by
    have ih := setKeys_runLoop now mc rand rest (pos + 16)
    simp only [setKeys] at ih ⊢
    simp [runLoop, ih]

theorem key_ne_failure (e : Int) : key e ≠ "failure" := by
  intro h
  have hd := congrArg String.data h
  rw [key, String.data_append] at hd
  have h1 : ("/nts/nts-keys/").data = '/' :: ("nts/nts-keys/").data := rfl
  have h2 : ("failure").data = 'f' :: ("ailure").data := rfl
  rw [h1, h2] at hd
  simp only [List.cons_append, List.cons.injEq] at hd
  exact absurd hd.1 (by decide)

theorem failure_printed_iff (now : Int) (mc : String → List Nat → Nat) (rand : Nat → Nat) :
    ∀ (l : List Int) (pos : Nat),
      "failure" ∈ printedLines (runLoop now mc rand l pos) ↔
        failedSetKeys (runLoop now mc rand l pos) ≠ []
  | [], _ => by simp [runLoop, printedLines, failedSetKeys]
  | i :: rest, pos => by
    have ih := failure_printed_iff now mc rand rest (pos + 16)
    simp only [printedLines, failedSetKeys] at ih ⊢
    by_cases h : mc (key (epoch now i)) (readBytes rand pos 16) = 0
    · simp [runLoop, h]
    · simp [runLoop, h, ih, Ne.symm (key_ne_failure (epoch now i))]

end FillMemcached

/-! ### Configuration environment (for the implicit no-configuration claim) -/

namespace FillMemcached

set_option maxRecDepth 1000000

/-- The configuration options the spec recognizes. The script hard-codes
all of them and reads no configuration source (no argv, no environment,
no file), so a run is the same in every configuration environment. -/
structure Config where
  cacheServers : List String
  intervalWidth : Int
  windowLo : Int
  windowHi : Int
  keyPrefix : String

/-- Running the script in a configuration environment: the script never
consults `_cfg`, so this is just `run`. -/
def runConfigured (_cfg : Config) (now : Int) (mc : String → List Nat → Nat)
    (rand : Nat → Nat) : List Event := run now mc rand

/-! ### The claims -/

/-- C1: For every integer `now`, one run generates exactly the 54 epochs
`(floor(now/3600)+i)*3600` for `i ∈ [-50, 3]`: the SET keys of the run are
the images of exactly these epochs, which form a list of length 54 that is
strictly increasing in steps of 3600 with no duplicates; in particular for
`now = 3600*10` the epochs run from -144000 through 46800. -/
theorem epoch_window_exact (now : Int) (mc : String → List Nat → Nat) (rand : Nat → Nat) :
    setKeys (run now mc rand) = (epochsOf now).map key ∧
    epochsOf now = (List.range 54).map (fun k => (Int.fdiv now 3600 + (-50 + (k : Int))) * 3600) ∧
    (epochsOf now).length = 54 ∧
    List.Chain' (fun a b => b = a + 3600) (epochsOf now) ∧
    (epochsOf now).Nodup ∧
    (epochsOf (3600 * 10)).head? = some (-144000) ∧
    (epochsOf (3600 * 10)).getLast? = some 46800 :=
  ⟨rfl, rfl, rfl, epochsOf_chain now, epochsOf_nodup now, by decide, by decide⟩

/-- C2: A failed SET for one key never aborts the run: whatever the backend
returns, the run issues a SET for every key of the window, and with the
spec's simulated backend that fails on exactly the `j`-th window key the
other 53 keys are still attempted and exactly that one key is reported as
failed. -/
theorem failures_isolated (now : Int) (mc : String → List Nat → Nat)
    (rand rand' : Nat → Nat) (j : Nat) (bad : String)
    (hk : (keysOf now).get? j = some bad) :
    setKeys (run now mc rand) = keysOf now ∧
    setKeys (run now (mcBad bad) rand') = keysOf now ∧
    failedSetKeys (run now (mcBad bad) rand') = [bad] := by
  refine ⟨rfl, rfl, ?_⟩
  have h0 : failedSetKeys (run now (mcBad bad) rand') =
      failedSetKeys (runLoop now (mcBad bad) rand' windowOffsets 0) := rfl
  rw [h0, failedSetKeys_runLoop_mcBad]
  have hkeys : (windowOffsets.map fun i => key (epoch now i)) = keysOf now := rfl
  rw [hkeys]
  exact nodup_filter_eq (keysOf_nodup now) (List.get?_mem hk)

/-- C2 witness: concrete instance of `failures_isolated` at `now = 36000`,
failing on the window key of offset -45. -/
theorem failures_isolated_witness :
    failedSetKeys (run 36000 (mcBad (key (epoch 36000 (-45)))) (fun _ => 0)) =
      [key (epoch 36000 (-45))] :=
  (failures_isolated 36000 (fun _ _ => 1) (fun _ => 0) (fun _ => 0) 5
    (key (epoch 36000 (-45))) (by decide)).2.2

/-- C3: The key set of a run is a deterministic function of `now` alone (two
runs with the same `now` issue SETs for identical key lists, whatever the
backend and random source do), while the stored values are exactly the fresh
reads from the run's own random source and therefore differ between runs
whose random sources differ. -/
theorem key_set_idempotent (now : Int) (mc₁ mc₂ : String → List Nat → Nat)
    (r₁ r₂ : Nat → Nat) :
    setKeys (run now mc₁ r₁) = setKeys (run now mc₂ r₂) ∧
    setValues (run now mc₁ r₁) = (List.range 54).map (fun k => readBytes r₁ (16 * k) 16) ∧
    ∃ s₁ s₂ : Nat → Nat, setValues (run now mc₁ s₁) ≠ setValues (run now mc₁ s₂) := by
  refine ⟨rfl, rfl, fun _ => 0, fun _ => 1, ?_⟩
  intro h
  have h0 := congrArg List.head? h
  have e₁ : (setValues (run now mc₁ (fun _ => 0))).head? =
      some (readBytes (fun _ => 0) 0 16) := rfl
  have e₂ : (setValues (run now mc₁ (fun _ => 1))).head? =
      some (readBytes (fun _ => 1) 0 16) := rfl
  rw [e₁, e₂] at h0
  exact absurd h0 (by decide)

/-- C4 counterexample: the keys are NOT formed as
`"/nts/nts-keys/" ++ "/" ++ epoch` — at `now = 0` the first generated key is the prefix directly followed by the
decimal epoch -180000, with no separator in between, so the claimed
formation with an extra slash does not match any key of the run. -/
theorem key_formation_counterexample :
    setKeys (run 0 (fun _ _ => 1) (fun _ => 0)) ≠
      windowOffsets.map (fun i => "/nts/nts-keys/" ++ "/" ++ toString (epoch 0 i)) ∧
    (setKeys (run 0 (fun _ _ => 1) (fun _ => 0))).head? = some "/nts/nts-keys/-180000" :=
  ⟨by decide, by decide⟩

/-- C4 (amended): for every offset in the window, the cache key is the
namespace prefix `/nts/nts-keys/` directly concatenated with the decimal
epoch (equivalently: prefix `/nts/nts-keys` joined to the epoch by `"/"`),
where the epoch is `(floor(now / interval) + i) * interval`. -/
theorem key_formation (now : Int) (mc : String → List Nat → Nat) (rand : Nat → Nat) :
    setKeys (run now mc rand) =
      windowOffsets.map (fun i =>
        "/nts/nts-keys/" ++ toString ((Int.fdiv now interval + i) * interval)) := rfl

/-- C5: every value written is exactly the next 16 bytes of the random
source — the values of the run's SETs are precisely the 54 consecutive
16-byte reads starting at stream position 0, each of length 16, and when
the stream never repeats a byte the 54 values are pairwise distinct (each
key gets fresh bytes; none are reused within a run). -/
theorem secret_values (now : Int) (mc : String → List Nat → Nat) (rand : Nat → Nat) :
    setValues (run now mc rand) = (List.range 54).map (fun k => readBytes rand (16 * k) 16) ∧
    (∀ v ∈ setValues (run now mc rand), v.length = 16) ∧
    (Function.Injective rand → (setValues (run now mc rand)).Nodup) := by
  have hv : setValues (run now mc rand) =
      (List.range 54).map (fun k => readBytes rand (16 * k) 16) := rfl
  refine ⟨rfl, ?_, ?_⟩
  · intro v hv'
    rw [hv] at hv'
    obtain ⟨k, _, hveq⟩ := List.mem_map.mp hv'
    rw [← hveq]
    simp [readBytes]
  · intro hinj
    rw [hv]
    have hf : Function.Injective (fun k => readBytes rand (16 * k) 16) := by
      intro a b hab
      have h0 := congrArg List.head? hab
      have e₁ : (readBytes rand (16 * a) 16).head? = some (rand (16 * a + 0)) := rfl
      have e₂ : (readBytes rand (16 * b) 16).head? = some (rand (16 * b + 0)) := rfl
      rw [e₁, e₂, Option.some.injEq] at h0
      have := hinj h0
      omega
    exact (List.nodup_range 54).map hf

/-- C5 witness: with the identity stream (which never repeats a byte) the
54 values written at `now = 0` are pairwise distinct. -/
theorem secret_values_witness :
    (setValues (run 0 (fun _ _ => 1) (fun n => n))).Nodup :=
  (secret_values 0 (fun _ _ => 1) (fun n => n)).2.2 (fun _ _ h => h)

/-- C6 counterexample: with a backend on which every SET fails, the run at
`now = 36000` has failed SETs, yet the process exit status is still 0 —
so "exit status is failing iff some SET failed" is false at this input. -/
theorem exit_status_counterexample :
    ¬ ((runExit 36000 (fun _ _ => 0) (fun _ => 0) ≠ 0) ↔
        failedSetKeys (run 36000 (fun _ _ => 0) (fun _ => 0)) ≠ []) := by decide

/-- C6 (amended): the process exit status is always 0, whatever the SET
calls returned; failures are observable only in the per-key output, where
a "failure" line is printed exactly when some SET failed. -/
theorem exit_status_amended (now : Int) (mc : String → List Nat → Nat) (rand : Nat → Nat) :
    runExit now mc rand = 0 ∧
    ("failure" ∈ printedLines (run now mc rand) ↔ failedSetKeys (run now mc rand) ≠ []) := by
  refine ⟨rfl, ?_⟩
  have h1 : printedLines (run now mc rand) =
      "filling memcache" :: printedLines (runLoop now mc rand windowOffsets 0) := rfl
  have h2 : failedSetKeys (run now mc rand) =
      failedSetKeys (runLoop now mc rand windowOffsets 0) := rfl
  have hne : ("failure" : String) ≠ "filling memcache" := by decide
  rw [h1, h2]
  simp [List.mem_cons, hne, failure_printed_iff now mc rand windowOffsets 0]

/-- C7: execution is sequential in offset order — the non-print operations
of the trace are, for each window index `k` (offset `-50 + k`) in
increasing order, exactly one 16-byte read from the random source followed
by exactly one SET of that offset's key, with no interleaving. -/
theorem sequential_in_offset_order (now : Int) (mc : String → List Nat → Nat)
    (rand : Nat → Nat) :
    opEvents (run now mc rand) =
      (List.range 54).flatMap (fun k =>
        [Event.read 16,
         Event.set (key (epoch now (-50 + (k : Int)))) (readBytes rand (16 * k) 16)
           (mc (key (epoch now (-50 + (k : Int)))) (readBytes rand (16 * k) 16))]) := rfl

/-- C8 (implicit): no configuration is consulted — a run is identical in
every configuration environment, and the hard-coded constants are the
server list `["localhost:11211"]`, interval width 3600, window offsets
-50 through 3, and every SET key carries the fixed namespace prefix. -/
theorem no_configuration_consulted (c₁ c₂ : Config) (now : Int)
    (mc : String → List Nat → Nat) (rand : Nat → Nat) :
    runConfigured c₁ now mc rand = runConfigured c₂ now mc rand ∧
    servers = ["localhost:11211"] ∧
    interval = 3600 ∧
    windowOffsets = (List.range 54).map (fun k => -50 + (k : Int)) ∧
    ∃ f : Int → String, setKeys (run now mc rand) =
      (epochsOf now).map (fun e => "/nts/nts-keys/" ++ f e) :=
  ⟨rfl, rfl, rfl, rfl, ⟨toString, rfl⟩⟩

/-- C9 (implicit): the trace interleaves prints with operations so that
each key is printed before its SET is attempted, every one of the 54 keys
appears in the output whatever the SET results are, and each key print is
followed by exactly one status line, "failure" when that SET returned 0
and "success" otherwise. -/
theorem output_reports_every_key (now : Int) (mc : String → List Nat → Nat)
    (rand : Nat → Nat) :
    run now mc rand = Event.print "filling memcache" ::
      (List.range 54).flatMap (fun k =>
        [Event.print (key (epoch now (-50 + (k : Int)))),
         Event.read 16,
         Event.set (key (epoch now (-50 + (k : Int)))) (readBytes rand (16 * k) 16)
           (mc (key (epoch now (-50 + (k : Int)))) (readBytes rand (16 * k) 16)),
         Event.print (if mc (key (epoch now (-50 + (k : Int)))) (readBytes rand (16 * k) 16) = 0
           then "failure" else "success")]) ∧
    printedLines (run now mc rand) = "filling memcache" ::
      (List.range 54).flatMap (fun k =>
        [key (epoch now (-50 + (k : Int))),
         if mc (key (epoch now (-50 + (k : Int)))) (readBytes rand (16 * k) 16) = 0
           then "failure" else "success"]) :=
  ⟨rfl, rfl⟩

/-- C10 (implicit): no retries — per run each window key receives exactly
one SET (the SET keys are exactly the 54 window keys, with no key SET
twice), and exactly 16 bytes are read from the random source per key,
864 bytes in total, regardless of SET outcomes. -/
theorem no_retries (now : Int) (mc : String → List Nat → Nat) (rand : Nat → Nat) :
    setKeys (run now mc rand) = keysOf now ∧
    (setKeys (run now mc rand)).Nodup ∧
    (setKeys (run now mc rand)).length = 54 ∧
    readSizes (run now mc rand) = List.replicate 54 16 ∧
    (readSizes (run now mc rand)).sum = 864 := by
  have h : setKeys (run now mc rand) = keysOf now := rfl
  have hr : readSizes (run now mc rand) = List.replicate 54 16 := rfl
  refine ⟨h, ?_, ?_, hr, ?_⟩
  · rw [h]
    exact keysOf_nodup now
  · rw [h]
    rfl
  · rw [hr]
    decide

end FillMemcached
